import Mathlib

/-!
Verification of the PIPT configuration parser (`input_output/read_config.py`).

The Python source is shallowly embedded: lines are `String`s, parsed values
are `PyVal` (floats modelled exactly as rationals, since every claim only
compares parse results structurally), dictionaries are association lists with
Python's overwrite-in-place insertion, and Python's runtime exceptions
(`IndexError`, `TypeError`, `UnboundLocalError`, `AssertionError`) are the
error side of `Except`.
-/

/-- Python whitespace (`str.split()` / `str.strip()` with no argument):
space, tab, newline, carriage return, vertical tab, form feed. -/
def isPySpace (c : Char) : Bool :=
  c = ' ' || c = '\t' || c = '\n' || c = '\r' || c.toNat = 11 || c.toNat = 12

/-- Accumulator-based whitespace tokenizer: the semantics of Python
`str.split()` (split on runs of whitespace, dropping empty pieces). -/
def wsTokensAux : List Char → List Char → List (List Char)
  | [], acc => if acc.isEmpty then [] else [acc.reverse]
  | c :: cs, acc =>
    if isPySpace c then
      if acc.isEmpty then wsTokensAux cs [] else acc.reverse :: wsTokensAux cs []
    else wsTokensAux cs (c :: acc)

def wsTokens (cs : List Char) : List (List Char) :=
  wsTokensAux cs []

/-- Python `str.split('\t')`: split at every tab, keeping empty pieces
(so the result always has one more piece than there are tabs). -/
def splitTab : List Char → List (List Char)
  | [] => [[]]
  | c :: cs =>
    if c = '\t' then [] :: splitTab cs
    else
      match splitTab cs with
      | [] => [[c]]
      | p :: ps => (c :: p) :: ps

/-- Python `str.strip()`: drop leading and trailing whitespace. -/
def stripChars (cs : List Char) : List Char :=
  ((cs.dropWhile isPySpace).reverse.dropWhile isPySpace).reverse

/-- Python `str.rstrip('\n')`: drop trailing newline characters only. -/
def rstripNlChars (cs : List Char) : List Char :=
  (cs.reverse.dropWhile (fun c => c = '\n')).reverse

/-- Python `str.lower()` restricted to ASCII (every string the parser
handles in the source's input format is ASCII). -/
def toLowerAscii (c : Char) : Char :=
  if 'A' ≤ c ∧ c ≤ 'Z' then Char.ofNat (c.toNat + 32) else c

def pyStrip (s : String) : String := String.mk (stripChars s.data)

def pyLower (s : String) : String := String.mk (s.data.map toLowerAscii)

def pyRstripNl (s : String) : String := String.mk (rstripNlChars s.data)

def pySplitWs (s : String) : List String := (wsTokens s.data).map String.mk

def pySplitTab (s : String) : List String := (splitTab s.data).map String.mk

/-- `lines[i].strip().lower()`, used for keyword names and section markers. -/
def stripLower (s : String) : String := pyLower (pyStrip s)

def digitsToNat (cs : List Char) : Nat :=
  cs.foldl (fun n c => n * 10 + (c.toNat - '0'.toNat)) 0

/-- The exact rational value `sign * mant / 10 ^ fracLen * 10 ^ e` of a
decoded float literal, computed with integer arithmetic only. -/
def ratVal (sign : Int) (mant : Nat) (fracLen : Nat) (e : Int) : Rat :=
  if 0 ≤ e then mkRat (sign * mant * 10 ^ e.toNat) (10 ^ fracLen)
  else mkRat (sign * mant) (10 ^ fracLen * 10 ^ (-e).toNat)

/-- Exponent digits of a float literal: optional sign then at least one digit,
consuming the whole remaining token. -/
def expDigits : List Char → Option Int
  | '+' :: t => if !t.isEmpty && t.all Char.isDigit then some (digitsToNat t) else none
  | '-' :: t => if !t.isEmpty && t.all Char.isDigit then some (-(digitsToNat t : Int)) else none
  | t => if !t.isEmpty && t.all Char.isDigit then some (digitsToNat t) else none

/-- Exponent part of a float literal: empty, or `e`/`E` then signed digits. -/
def expPart : List Char → Option Int
  | [] => some 0
  | c :: t => if c = 'e' ∨ c = 'E' then expDigits t else none

/-- Grammar of a Python float literal on a whitespace-free token:
optional sign, mantissa (`digits`, `digits.`, `digits.digits` or `.digits`),
optional exponent.  The value is computed exactly as a rational; the binary
rounding of Python floats is immaterial to every claim, which only compare
parse results from short decimal literals.  The special forms `inf`, `nan`
and digit-group underscores are not modelled (no claim involves them; they
are treated as non-numeric). -/
def floatTok (cs : List Char) : Option Rat :=
  let sc : Int × List Char :=
    match cs with
    | '+' :: t => (1, t)
    | '-' :: t => (-1, t)
    | t => (1, t)
  let ip := sc.2.takeWhile Char.isDigit
  let rest1 := sc.2.dropWhile Char.isDigit
  match rest1 with
  | '.' :: rest2 =>
    let fp := rest2.takeWhile Char.isDigit
    let rest3 := rest2.dropWhile Char.isDigit
    if ip.isEmpty && fp.isEmpty then none
    else
      (expPart rest3).map fun e =>
        ratVal sc.1 (digitsToNat ip * 10 ^ fp.length + digitsToNat fp) fp.length e
  | rest =>
    if ip.isEmpty then none
    else (expPart rest).map fun e => ratVal sc.1 (digitsToNat ip) 0 e

/-- Python `float(s)`: surrounding whitespace is stripped, then the whole
remainder must be a single float literal.  Equivalently: `s` has exactly one
whitespace token, and that token parses as a float literal (a literal can
never contain whitespace, so a string with two or more tokens always fails). -/
def pyFloat? (s : String) : Option Rat :=
  match wsTokens s.data with
  | [t] => floatTok t
  | _ => none

/-- A Python value as produced by `parse_keywords`: a float, a string, or a
(possibly nested, possibly heterogeneous) list. -/
inductive PyVal where
  | num (q : Rat)
  | str (s : String)
  | list (l : List PyVal)

def PyVal.isStr : PyVal → Bool
  | .str _ => true
  | _ => false

def PyVal.isNum : PyVal → Bool
  | .num _ => true
  | _ => false

def PyVal.isList : PyVal → Bool
  | .list _ => true
  | _ => false

/-- The Python runtime exceptions that the parser can raise. -/
inductive PyErr where
  | indexError
  | typeError
  | unboundLocal (v : String)
  | assertionError (msg : String)

abbrev Dict := List (String × PyVal)

/-- Python `keys[k] = v`: overwrite in place if the key exists, else append. -/
def dictInsert : Dict → String → PyVal → Dict
  | [], k, v => [(k, v)]
  | (k', v') :: d, k, v =>
    if k' = k then (k, v) :: d else (k', v') :: dictInsert d k v

def dictLookup : Dict → String → Option PyVal
  | [], _ => none
  | (k', v') :: d, k => if k' = k then some v' else dictLookup d k

/-- Python `k in keys`. -/
def hasKey (d : Dict) (k : String) : Bool :=
  (dictLookup d k).isSome

/-- Number of entries of `d` whose key is `n`. -/
def countName (d : Dict) (n : String) : Nat :=
  (d.map Prod.fst).count n

/-- `s` begins with the characters of `pre` (the sense in which a key
matches the glob pattern `"prior_*"` of line 218). -/
def startsWithStr (pre s : String) : Bool :=
  pre.data.isPrefixOf s.data

/-- All-or-nothing `Option` traversal: the semantics of a Python list
comprehension over a converter that may raise (any failure fails the whole
comprehension). -/
def mapO (f : α → Option β) : List α → Option (List β)
  | [] => some []
  | x :: t =>
    match f x, mapO f t with
    | some y, some ys => some (y :: ys)
    | _, _ => none

/-- `Except` traversal that stops at the first error: the semantics of a
Python loop that mutates entries until an exception aborts it. -/
def mapE (f : α → Except PyErr β) : List α → Except PyErr (List β)
  | [] => .ok []
  | x :: t =>
    match f x with
    | .error e => .error e
    | .ok y =>
      match mapE f t with
      | .error e => .error e
      | .ok ys => .ok (y :: ys)

/-- First classification attempt (`read_config.py` lines 139-144): a scalar
float when the payload is one line with one whitespace token, else a flat
list of floats, one per payload line. -/
def attempt1D (p : List String) : Option PyVal :=
  if p.length = 1 ∧ (pySplitWs (p.headD "")).length = 1 then
    (pyFloat? (p.headD "")).map PyVal.num
  else
    (mapO pyFloat? p).map fun qs => PyVal.list (qs.map PyVal.num)

/-- Second classification attempt (lines 146-152): a single payload line is
whitespace-split into a float vector; several lines become a float matrix,
one whitespace-split row per line. -/
def attempt2D (p : List String) : Option PyVal :=
  if p.length = 1 then
    (mapO pyFloat? (pySplitWs (p.headD ""))).map fun qs => PyVal.list (qs.map PyVal.num)
  else
    (mapO (fun col => mapO pyFloat? (pySplitWs col)) p).map fun rss =>
      PyVal.list (rss.map fun qs => PyVal.list (qs.map PyVal.num))

/-- Final string classification (lines 153-174): tab-splitting with the
source's exact stripping, lowercasing and empty-field filtering. -/
def stringBranch (p : List String) : PyVal :=
  if p.length = 1 then
    let l := p.headD ""
    if (pySplitTab l).length = 1 then
      PyVal.str (stripLower l)
    else
      PyVal.list (((pySplitTab l).filter (fun x => x ≠ "")).map
        fun x => PyVal.str (pyLower (pyRstripNl x)))
  else
    if p.all (fun l => (pySplitTab l).length ≤ 1) then
      PyVal.list (p.map fun x => PyVal.str (pyLower (pyRstripNl x)))
    else
      PyVal.list (p.map fun col =>
        PyVal.list (((pySplitTab col).filter (fun x => x ≠ "")).map
          fun x => PyVal.str (pyLower (pyRstripNl x))))

/-- The nested try/except cascade of lines 139-174 on a block's payload. -/
def classifyVal (p : List String) : PyVal :=
  match attempt1D p with
  | some v => v
  | none =>
    match attempt2D p with
    | some v => v
    | none => stringBranch p

/-- `lines[i][0].strip().lower()`: the dictionary key is the block's whole
first line, stripped and lowercased. -/
def blockName (b : List String) : String :=
  stripLower (b.headD "")

/-- One iteration of the classification loop: an empty block (an empty line
in the file) is skipped, otherwise the block's value is stored under the
block's name, overwriting any earlier entry. -/
def insStep (d : Dict) (b : List String) : Dict :=
  if b = [] then d else dictInsert d (blockName b) (classifyVal b.tail)

/-- The classification loop of lines 134-174: empty blocks are skipped, and
duplicate names overwrite. -/
def buildDict (blocks : List (List String)) : Dict :=
  blocks.foldl insStep []

/-- Per-element repair attempt (lines 186-192 and 196-202): try `float`,
then try whitespace-splitting into a list of floats, else keep the string. -/
def repairElem (s : String) : PyVal :=
  match pyFloat? s with
  | some q => PyVal.num q
  | none =>
    match mapO pyFloat? (pySplitWs s) with
    | some qs => PyVal.list (qs.map PyVal.num)
    | none => PyVal.str s

/-- In-place repair of one element of a row or vector whose elements are all
strings: the inner body of the loops at lines 185-192 and 195-202 (identical
text in the source).  Non-string elements never reach it. -/
def convElem : PyVal → PyVal
  | .str s => repairElem s
  | x => x

/-- Repair of one row of a 2D value (lines 183-192).  A row that is a Python
string iterates as its characters, all of which are strings; converting a
character either fails or succeeds, and in the success case the in-place
item assignment on the string raises a `TypeError` that the bare `except`
clauses swallow — either way the row is unchanged.  A float row raises an
uncaught `TypeError` at `all(isinstance(x, str) for x in row)`, since a
float is not iterable. -/
def repairRow : PyVal → Except PyErr PyVal
  | .list es =>
    if es.all PyVal.isStr then .ok (.list (es.map convElem))
    else .ok (.list es)
  | .str s => .ok (.str s)
  | .num _ => .error .typeError

/-- The repair pass on one value (lines 180-202).  `keys[i][0]` on an empty
list raises an uncaught `IndexError`. -/
def repairVal : PyVal → Except PyErr PyVal
  | .list [] => .error .indexError
  | .list (r0 :: rest) =>
    if r0.isList then (mapE repairRow (r0 :: rest)).map PyVal.list
    else if (r0 :: rest).all PyVal.isStr then
      .ok (.list ((r0 :: rest).map convElem))
    else .ok (.list (r0 :: rest))
  | v => .ok v

/-- The repair loop over every key (lines 180-202); a raised exception
aborts the whole loop. -/
def repairDict : Dict → Except PyErr Dict
  | [] => .ok []
  | (k, v) :: rest =>
    match repairVal v with
    | .error e => .error e
    | .ok w =>
      match repairDict rest with
      | .error e => .error e
      | .ok m => .ok ((k, w) :: m)

/-- `parse_keywords` (lines 116-205): classification followed by the
mixed-type repair pass. -/
def parse_keywords (blocks : List (List String)) : Except PyErr Dict :=
  repairDict (buildDict blocks)

/-- Python slice `l[a:b]` for the non-negative indices used by the source. -/
def pySlice (l : List String) (a b : Nat) : List String :=
  (l.drop a).take (b - a)

/-- Indices of the blank (newline-only) lines, the `sep` list of
`remove_empty_lines` (lines 99-102). -/
def findNl : List String → Nat → List Nat
  | [], _ => []
  | x :: t, k => if x = "\n" then k :: findNl t (k + 1) else findNl t (k + 1)

/-- `remove_empty_lines` (lines 84-113): one block per blank-line index —
`lines[0:sep[0]]` first, then `lines[sep[i-1]+1:sep[i]]`.  Note that no
block is emitted for the lines after the last blank line. -/
def remove_empty_lines (lines : List String) : List (List String) :=
  let sep := findNl lines 0
  (List.range sep.length).map fun i =>
    if i = 0 then pySlice lines 0 (sep.getD 0 0)
    else pySlice lines (sep.getD (i - 1) 0 + 1) (sep.getD i 0)

/-- Line 218 compares `filter(list(keys_da.keys()), 'prior_*')` — a call of
the *builtin* `filter` (no `fnmatch` import exists in the source), which
returns a lazy filter object — with `[]` using `!=`.  A filter object never
equals a list, so the comparison is the constant `True` and the assert can
never fire. -/
def builtinFilterObjNeList : Bool := true

/-- `check_mand_keywords_da_fwdsim` (lines 207-224), with the source's
assert messages and assert order. -/
def check_mand_keywords_da_fwdsim (keys_da keys_fwd : Dict) : Except PyErr Unit :=
  if hasKey keys_da "ne" = false then .error (.assertionError "NE not in DATAASSIM!")
  else if hasKey keys_da "truedataindex" = false then .error (.assertionError "TRUEDATAINDEX not in DATAASSIM!")
  else if hasKey keys_da "assimindex" = false then .error (.assertionError "ASSIMINDEX not in DATAASSIM!")
  else if hasKey keys_da "truedata" = false then .error (.assertionError "TRUEDATA not in DATAASSIM!")
  else if hasKey keys_da "staticvar" = false then .error (.assertionError "STATICVAR not in DATAASSIM!")
  else if hasKey keys_da "datavar" = false then .error (.assertionError "DATAVAR not in DATAASSIM!")
  else if hasKey keys_da "obsname" = false then .error (.assertionError "OBSNAME not in DATAASSIM!")
  else if hasKey keys_da "importstaticvar" = false ∧ builtinFilterObjNeList = false then
    .error (.assertionError "No PRIOR_<STATICVAR> in DATAASSIM")
  else if hasKey keys_da "energy" = false then .error (.assertionError "ENERGY not in DATAASSIM!")
  else if hasKey keys_fwd "simulator" = false then .error (.assertionError "SIMULATOR not in FWDSIM!")
  else if hasKey keys_fwd "parallel" = false then .error (.assertionError "PARALLEL not in FWDSIM!")
  else if hasKey keys_fwd "datatype" = false then .error (.assertionError "DATATYPE not in FWDSIM!")
  else .ok ()

/-- The loop state of the marker scan in `read_txt` (lines 31-36): the
variables `ipind`, `ip_part` and `fwdsimind`, unbound until assigned. -/
structure ScanSt where
  ipind : Option Nat
  ip_part : Option String
  fwdsimind : Option Nat

/-- One iteration of the marker scan (later matches overwrite earlier ones). -/
def scanStep (i : Nat) (l : String) (st : ScanSt) : ScanSt :=
  if stripLower l = "dataassim" ∨ stripLower l = "optim" then
    { st with ipind := some i, ip_part := some (stripLower l) }
  else if stripLower l = "fwdsim" then { st with fwdsimind := some i }
  else st

def scanGo : Nat → ScanSt → List String → ScanSt
  | _, st, [] => st
  | i, st, l :: t => scanGo (i + 1) (scanStep i l st) t

/-- `read_txt` lines 46-60, given the two section line-ranges and the value
of `ip_part`: blank-line segmentation, keyword parsing, and the mandatory
keyword check.  When `ip_part` is neither recognized tag (impossible, since
the scan only ever assigns those two), `keys_da` stays unbound and reading
it at the `check_mand_keywords_da_fwdsim` call raises `NameError`. -/
def readTxtStage2 (lines_ip lines_fwd : List String) (p : String) : Except PyErr (Dict × Dict) :=
  if p = "dataassim" ∨ p = "optim" then
    match parse_keywords (remove_empty_lines lines_ip) with
    | .error e => .error e
    | .ok keys_da =>
      match parse_keywords (remove_empty_lines lines_fwd) with
      | .error e => .error e
      | .ok keys_fwd =>
        match check_mand_keywords_da_fwdsim keys_da keys_fwd with
        | .error e => .error e
        | .ok _ => .ok (keys_da, keys_fwd)
  else
    match parse_keywords (remove_empty_lines lines_fwd) with
    | .error e => .error e
    | .ok _ => .error (.unboundLocal "keys_da")

/-- `read_txt` (lines 31-60) from the cleaned line list onward, up to the
hand-off to the Section Organizer.  Reading an unbound loop variable raises
`UnboundLocalError` (`ipind` is evaluated first in `ipind < fwdsimind`).
Modelled from the spec: the Section Organizer (`input_output/organize.py`,
not under `src/`) is an out-of-scope collaborator that deterministically
restructures the returned pair, so the model returns the pair that is handed
to it. -/
def readTxtLines (lines : List String) : Except PyErr (Dict × Dict) :=
  match (scanGo 0 ⟨none, none, none⟩ lines).ipind,
        (scanGo 0 ⟨none, none, none⟩ lines).fwdsimind,
        (scanGo 0 ⟨none, none, none⟩ lines).ip_part with
  | none, _, _ => .error (.unboundLocal "ipind")
  | some _, none, _ => .error (.unboundLocal "fwdsimind")
  | some _, some _, none => .error (.unboundLocal "ip_part")
  | some ipind, some fwdsimind, some p =>
    if ipind < fwdsimind then
      readTxtStage2 (pySlice lines 2 fwdsimind) (lines.drop (fwdsimind + 2)) p
    else
      readTxtStage2 (lines.drop (ipind + 2)) (pySlice lines 2 ipind) p

/-- Safety of a value under the repair pass: `repairVal v` raises exactly
when `v` is the empty list (`IndexError` at `keys[i][0]`) or a list headed
by a list but containing a top-level float (`TypeError` when the float is
iterated).  `valOk` rules those two shapes out. -/
def valOk : PyVal → Bool
  | .list [] => false
  | .list (r0 :: rest) => !r0.isList || (r0 :: rest).all (fun r => !r.isNum)
  | _ => true

theorem mapO_length {α β : Type} (f : α → Option β) :
    ∀ (l : List α) (ys : List β), mapO f l = some ys → ys.length = l.length := by
  intro l
  induction l with
  | nil =>
    intro ys h
    simp [mapO] at h
    simp [h]
  | cons x t ih =>
    intro ys h
    unfold mapO at h
    cases hfx : f x with
    | none => rw [hfx] at h; simp at h
    | some y =>
      rw [hfx] at h
      cases hmt : mapO f t with
      | none => rw [hmt] at h; simp at h
      | some ts =>
        rw [hmt] at h
        simp at h
        simp [← h, ih ts hmt]

theorem mapE_map_ok {α β γ : Type} (f : β → Except PyErr γ) (g₁ : α → β) (g₂ : α → γ) :
    ∀ (l : List α), (∀ x ∈ l, f (g₁ x) = .ok (g₂ x)) → mapE f (l.map g₁) = .ok (l.map g₂) := by
  intro l
  induction l with
  | nil => intro _; rfl
  | cons a t ih =>
    intro h
    simp only [List.map_cons]
    unfold mapE
    rw [h a (by simp), ih (fun x hx => h x (by simp [hx]))]

theorem takeLenApp {α : Type} (xs ys : List α) : (xs ++ ys).take xs.length = xs := by
  induction xs with
  | nil => rfl
  | cons a t ih => simp [List.take_succ_cons, ih]

theorem dropLenApp {α : Type} (xs ys : List α) (k : Nat) :
    (xs ++ ys).drop (xs.length + k) = ys.drop k := by
  induction xs with
  | nil => simp
  | cons a t ih => simpa [Nat.succ_add] using ih

theorem findNl_append (xs ys : List String) (k : Nat) :
    findNl (xs ++ ys) k = findNl xs k ++ findNl ys (k + xs.length) := by
  induction xs generalizing k with
  | nil => simp [findNl]
  | cons a t ih =>
    by_cases h : a = "\n" <;>
      simp [findNl, h, ih (k + 1), Nat.add_assoc, Nat.add_comm 1 t.length]

theorem findNl_nil_of_not_mem (xs : List String) (k : Nat) (h : "\n" ∉ xs) :
    findNl xs k = [] := by
  induction xs generalizing k with
  | nil => rfl
  | cons a t ih =>
    have ha : a ≠ "\n" := fun hc => h (by simp [hc])
    simp [findNl, fun hc => ha hc, ih (k + 1) (fun hc => h (by simp [hc]))]

/-- C4 counterexample: a non-empty input with no blank line produces *zero*
blocks, not one block spanning the whole input — `remove_empty_lines` only
emits segments that end at a blank line, so all content after the last blank
line (here: all content) is dropped. -/
theorem remove_empty_lines_no_blank_cex :
    remove_empty_lines ["a\n"] = [] ∧ remove_empty_lines ["a\n"] ≠ [["a\n"]] := by
  refine ⟨rfl, ?_⟩
  intro h
  have h0 : remove_empty_lines ["a\n"] = [] := rfl
  rw [h0] at h
  simp at h

/-- C4 amended: the segmenter emits exactly the segments strictly between
blank lines, up to the last blank line.  For an input of the form
`xs ++ ["\n"] ++ ys` with no blank line inside `xs` or `ys`, the output is
exactly `[xs]`: the lines before the blank form a block, and the lines after
the last blank line (`ys`) are dropped. -/
theorem remove_empty_lines_single_blank (xs ys : List String)
    (hx : "\n" ∉ xs) (hy : "\n" ∉ ys) :
    remove_empty_lines (xs ++ "\n" :: ys) = [xs] := by
  have hsep : findNl (xs ++ "\n" :: ys) 0 = [xs.length] := by
    rw [findNl_append, findNl_nil_of_not_mem xs 0 hx]
    simp [findNl, findNl_nil_of_not_mem ys _ hy]
  unfold remove_empty_lines
  rw [hsep]
  simp [pySlice, takeLenApp, List.range_succ]

/-- Witness for `remove_empty_lines_single_blank` at a concrete input. -/
theorem remove_empty_lines_single_blank_w :
    remove_empty_lines (["a\n"] ++ "\n" :: ["b\n"]) = [["a\n"]] :=
  remove_empty_lines_single_blank ["a\n"] ["b\n"] (by decide) (by decide)

/-- C2: the `PRIOR_<name>` requirement is not enforced.  Line 218 asserts
`filter(list(keys_da.keys()), 'prior_*') != []`, a comparison of a lazy
builtin-filter object with a list, which is always `True`; hence the
validator accepts a mapping that has all other mandatory keys but neither
`importstaticvar` nor any `prior_`-key, where the claim requires a
`MissingKeyword` failure. -/
theorem check_mand_prior_not_enforced (keys_da keys_fwd : Dict)
    (h1 : hasKey keys_da "ne" = true)
    (h2 : hasKey keys_da "truedataindex" = true)
    (h3 : hasKey keys_da "assimindex" = true)
    (h4 : hasKey keys_da "truedata" = true)
    (h5 : hasKey keys_da "staticvar" = true)
    (h6 : hasKey keys_da "datavar" = true)
    (h7 : hasKey keys_da "obsname" = true)
    (h8 : hasKey keys_da "energy" = true)
    (h9 : hasKey keys_da "importstaticvar" = false)
    (h10 : ∀ k ∈ keys_da.map Prod.fst, startsWithStr "prior_" k = false)
    (h11 : hasKey keys_fwd "simulator" = true)
    (h12 : hasKey keys_fwd "parallel" = true)
    (h13 : hasKey keys_fwd "datatype" = true) :
    check_mand_keywords_da_fwdsim keys_da keys_fwd = .ok () := by
  simp [check_mand_keywords_da_fwdsim, h1, h2, h3, h4, h5, h6, h7, h8, h9, h11, h12, h13,
    builtinFilterObjNeList]

/-- Witness: a complete DATAASSIM mapping with no `importstaticvar` and no
`prior_` key passes the validator. -/
theorem check_mand_prior_not_enforced_w :
    check_mand_keywords_da_fwdsim
      [("ne", .num 1), ("truedataindex", .num 1), ("assimindex", .num 1), ("truedata", .num 2),
       ("staticvar", .str "perm"), ("datavar", .num 1), ("obsname", .str "obs"), ("energy", .num 98)]
      [("simulator", .str "sim"), ("parallel", .num 1), ("datatype", .str "wbhp")] = .ok () :=
  check_mand_prior_not_enforced _ _ rfl rfl rfl rfl rfl rfl rfl rfl rfl (by decide) rfl rfl rfl

/-- C3 counterexample: a block consisting of only a keyword line classifies
as the empty list (the 1D float comprehension over an empty payload succeeds
vacuously), and the repair pass then evaluates `keys[i][0]` on that empty
list, raising an uncaught `IndexError` — `parse_keywords` does not complete. -/
theorem parse_keyword_only_block_cex :
    parse_keywords [["KEY\n"]] = .error .indexError := rfl

/-- C5 counterexample: with the `fwdsim` marker absent, `read_txt` fails
with `UnboundLocalError` on the loop variable `fwdsimind` (raised by
`ipind < fwdsimind`), not with a `MissingSection` diagnostic naming the
missing marker — no such diagnostic exists anywhere in the source. -/
theorem read_txt_missing_marker_cex :
    readTxtLines ["dataassim\n", "x\n", "y\n"] = .error (.unboundLocal "fwdsimind") := rfl

/-- C1 counterexample: the string matrix parsed from rows `"1.5\tabc"` and
`"x\ty"` is repaired element-wise, producing the row `[1.5, "abc"]`, which
mixes a numeric leaf and a string leaf inside what was a single all-string
row — rows are not repaired atomically. -/
theorem parse_mixed_row_cex :
    parse_keywords [["K\n", "1.5\tabc\n", "x\ty\n"]] =
      .ok [("k", .list [.list [.num (mkRat 3 2), .str "abc"], .list [.str "x", .str "y"]])] ∧
    [PyVal.num (mkRat 3 2), PyVal.str "abc"].all PyVal.isStr = false ∧
    [PyVal.num (mkRat 3 2), PyVal.str "abc"].all PyVal.isNum = false :=
  ⟨rfl, rfl, rfl⟩

/-- C6 counterexample: for the raw payload line `"Oil\tWater\t\n"` (trailing
newline included), the piece after the trailing tab is `"\n"`, which is not
the empty string and so survives the `x != ''` filter; it is then stripped
to `""`, and the repair pass converts `""` into the empty float list.  The
final value is `["oil", "water", []]`, not `["oil", "water"]`. -/
theorem parse_trailing_tab_newline_cex :
    parse_keywords [["HEADER\n", "Oil\tWater\t\n"]] =
      .ok [("header", .list [.str "oil", .str "water", .list []])] ∧
    parse_keywords [["HEADER\n", "Oil\tWater\t\n"]] ≠
      .ok [("header", .list [.str "oil", .str "water"])] := by
  refine ⟨rfl, ?_⟩
  intro h
  have h0 : parse_keywords [["HEADER\n", "Oil\tWater\t\n"]] =
      .ok [("header", PyVal.list [.str "oil", .str "water", .list []])] := rfl
  rw [h0] at h
  simp at h

/-- C6 amended: with the trailing newline the parsed value is
`["oil", "water", []]` (the empty field after the trailing tab survives the
filter as `"\n"`, strips to `""`, and is then repaired into the empty float
list); only without the trailing newline — i.e. at end of file — does the
payload `"Oil\tWater\t"` give `["oil", "water"]`. -/
theorem parse_trailing_tab_amended :
    parse_keywords [["HEADER\n", "Oil\tWater\t\n"]] =
      .ok [("header", .list [.str "oil", .str "water", .list []])] ∧
    parse_keywords [["HEADER\n", "Oil\tWater\t"]] =
      .ok [("header", .list [.str "oil", .str "water"])] :=
  ⟨rfl, rfl⟩

/-- C9 counterexample: one application of the repair pass turns the string
vector `["1 2", "x", "3"]` into `[[1.0, 2.0], "x", 3.0]`; a second
application sees a list whose first element is a list, treats it as a 2D
value, and crashes with an uncaught `TypeError` when it iterates the float
`3.0` in `all(isinstance(x, str) for x in row)` — the repair pass is not
idempotent. -/
theorem repair_not_idempotent_cex :
    repairDict [("k", .list [.str "1 2", .str "x", .str "3"])] =
      .ok [("k", .list [.list [.num 1, .num 2], .str "x", .num 3])] ∧
    repairDict [("k", .list [.list [.num 1, .num 2], .str "x", .num 3])] =
      .error .typeError :=
  ⟨rfl, rfl⟩

/-- C10 counterexample: the dictionary key is the block's whole first line
stripped and lowercased, not its first whitespace-delimited token.  Two
blocks whose first tokens both lowercase to `"a"` (first lines `"A x"` and
`"A y"`) produce two distinct keys `"a x"` and `"a y"`; the name `"a"` is
not bound at all, let alone exactly once to the later block's value. -/
theorem parse_whole_line_key_cex :
    parse_keywords [["A x\n", "oil\n"], ["A y\n", "oil\n"]] =
      .ok [("a x", .str "oil"), ("a y", .str "oil")] ∧
    pySplitWs "A x\n" = ["A", "x"] ∧ pySplitWs "A y\n" = ["A", "y"] ∧
    dictLookup [("a x", PyVal.str "oil"), ("a y", PyVal.str "oil")] "a" = none ∧
    countName [("a x", PyVal.str "oil"), ("a y", PyVal.str "oil")] "a" = 0 :=
  ⟨rfl, rfl, rfl, rfl, rfl⟩

theorem pyFloat?_eq_none_of_two_tokens (line : String)
    (h : 2 ≤ (pySplitWs line).length) : pyFloat? line = none := by
  unfold pyFloat?
  unfold pySplitWs at h
  cases hw : wsTokens line.data with
  | nil => simp [hw] at h
  | cons t ts =>
    cases ts with
    | nil => simp [hw] at h
    | cons t2 ts2 => rfl

/-- C8: a keyword block whose single payload line has two or more
whitespace-separated tokens that all convert to floats parses to the flat
vector of those floats in token order: the scalar branch is skipped (more
than one token), the 1D float attempt fails (`float` of the whole line
fails, since a float literal cannot contain whitespace), and the 2D attempt
whitespace-splits the single line into a flat vector.  The repair pass
leaves a float vector untouched. -/
theorem parse_multi_token_numeric_line (kw line : String) (qs : List Rat)
    (hq : mapO pyFloat? (pySplitWs line) = some qs) (h2 : 2 ≤ qs.length) :
    parse_keywords [[kw, line]] = .ok [(stripLower kw, .list (qs.map PyVal.num))] := by
  have hlen : (pySplitWs line).length = qs.length := (mapO_length _ _ _ hq).symm
  have hfl : pyFloat? line = none :=
    pyFloat?_eq_none_of_two_tokens line (by rw [hlen]; exact h2)
  have h1 : attempt1D [line] = none := by
    unfold attempt1D
    rw [if_neg (by simp [hlen]; omega)]
    simp [mapO, hfl]
  have h2d : attempt2D [line] = some (.list (qs.map PyVal.num)) := by
    unfold attempt2D
    rw [if_pos (by simp)]
    simp [hq]
  have hcls : classifyVal [line] = .list (qs.map PyVal.num) := by
    unfold classifyVal
    rw [h1, h2d]
  have hbd : buildDict [[kw, line]] = [(stripLower kw, classifyVal [line])] := by
    simp [buildDict, insStep, blockName, dictInsert, stripLower]
  obtain ⟨q, qs', rfl⟩ : ∃ q qs', qs = q :: qs' := by
    cases qs with
    | nil => simp at h2
    | cons q qs' => exact ⟨q, qs', rfl⟩
  unfold parse_keywords
  rw [hbd, hcls]
  simp [repairDict, mapE, repairVal, PyVal.isList, PyVal.isStr, Except.map]

/-- Witness for `parse_multi_token_numeric_line`: payload `"1 2 3"` yields
the vector `[1.0, 2.0, 3.0]`. -/
theorem parse_multi_token_numeric_line_w :
    parse_keywords [["K\n", "1 2 3\n"]] = .ok [("k", .list [.num 1, .num 2, .num 3])] := by
  have h := parse_multi_token_numeric_line "K\n" "1 2 3\n" [1, 2, 3] rfl (by decide)
  exact h.trans (by rfl)

theorem scanGo_append (xs ys : List String) :
    ∀ (i : Nat) (st : ScanSt), scanGo i st (xs ++ ys) = scanGo (i + xs.length) (scanGo i st xs) ys := by
  induction xs with
  | nil => intro i st; simp [scanGo]
  | cons a t ih =>
    intro i st
    simp only [List.cons_append, scanGo, List.append_eq]
    rw [ih (i + 1) (scanStep i a st)]
    congr 1
    simp [List.length_cons]
    omega

theorem scanGo_fwdsimind_of_no_fwd (ls : List String)
    (h : ∀ l ∈ ls, stripLower l ≠ "fwdsim") :
    ∀ (i : Nat) (st : ScanSt), (scanGo i st ls).fwdsimind = st.fwdsimind := by
  induction ls with
  | nil => intro i st; rfl
  | cons a t ih =>
    intro i st
    have ha : stripLower a ≠ "fwdsim" := h a (by simp)
    have ht : ∀ l ∈ t, stripLower l ≠ "fwdsim" := fun l hl => h l (by simp [hl])
    rw [scanGo, ih ht]
    unfold scanStep
    by_cases hip : stripLower a = "dataassim" ∨ stripLower a = "optim"
    · rw [if_pos hip]
    · rw [if_neg hip, if_neg (by exact ha)]

theorem scanGo_ipind_of_no_ip (ls : List String)
    (h : ∀ l ∈ ls, stripLower l ≠ "dataassim" ∧ stripLower l ≠ "optim") :
    ∀ (i : Nat) (st : ScanSt), (scanGo i st ls).ipind = st.ipind := by
  induction ls with
  | nil => intro i st; rfl
  | cons a t ih =>
    intro i st
    have ha := h a (by simp)
    have ht : ∀ l ∈ t, stripLower l ≠ "dataassim" ∧ stripLower l ≠ "optim" :=
      fun l hl => h l (by simp [hl])
    rw [scanGo, ih ht]
    unfold scanStep
    by_cases hfw : stripLower a = "fwdsim"
    · rw [if_neg (by simp [ha.1, ha.2]), if_pos hfw]
    · rw [if_neg (by simp [ha.1, ha.2]), if_neg hfw]

/-- C5 amended: when the `dataassim`/`optim` marker is absent, or the
`fwdsim` marker is absent, the parse aborts with an uncaught
`UnboundLocalError` on the corresponding loop index variable (`ipind`,
respectively `fwdsimind`) — a Python runtime failure, not a deliberate
diagnostic naming the missing marker.  No mappings (partial or otherwise)
are returned, since the failure happens before any keyword parsing. -/
theorem read_txt_missing_marker_amended (lines : List String)
    (h : (∀ l ∈ lines, stripLower l ≠ "dataassim" ∧ stripLower l ≠ "optim") ∨
         (∀ l ∈ lines, stripLower l ≠ "fwdsim")) :
    readTxtLines lines = .error (.unboundLocal "ipind") ∨
    readTxtLines lines = .error (.unboundLocal "fwdsimind") := by
  cases h with
  | inl h =>
    left
    have hip : (scanGo 0 ⟨none, none, none⟩ lines).ipind = none :=
      scanGo_ipind_of_no_ip lines h 0 _
    unfold readTxtLines
    rw [hip]
  | inr h =>
    have hfw : (scanGo 0 ⟨none, none, none⟩ lines).fwdsimind = none :=
      scanGo_fwdsimind_of_no_fwd lines h 0 _
    cases hip : (scanGo 0 ⟨none, none, none⟩ lines).ipind with
    | none =>
      left
      unfold readTxtLines
      rw [hip]
    | some i =>
      right
      unfold readTxtLines
      rw [hip, hfw]

/-- Witness for `read_txt_missing_marker_amended`: a file with only a
`DATAASSIM` marker fails with one of the two unbound-variable errors. -/
theorem read_txt_missing_marker_amended_w :
    readTxtLines ["DATAASSIM\n", "x\n"] = .error (.unboundLocal "ipind") ∨
    readTxtLines ["DATAASSIM\n", "x\n"] = .error (.unboundLocal "fwdsimind") :=
  read_txt_missing_marker_amended ["DATAASSIM\n", "x\n"] (Or.inr (by decide))

theorem scanGo_of_no_marker (ls : List String)
    (h : ∀ l ∈ ls, stripLower l ≠ "dataassim" ∧ stripLower l ≠ "optim" ∧ stripLower l ≠ "fwdsim") :
    ∀ (i : Nat) (st : ScanSt), scanGo i st ls = st := by
  induction ls with
  | nil => intro i st; rfl
  | cons a t ih =>
    intro i st
    have ha := h a (by simp)
    have ht : ∀ l ∈ t, stripLower l ≠ "dataassim" ∧ stripLower l ≠ "optim" ∧ stripLower l ≠ "fwdsim" :=
      fun l hl => h l (by simp [hl])
    rw [scanGo, ih ht]
    unfold scanStep
    rw [if_neg (by simp [ha.1, ha.2.1]), if_neg ha.2.2]

theorem pySlice_append_len (xs ys : List String) :
    pySlice (xs ++ ys) 2 xs.length = xs.drop 2 := by
  unfold pySlice
  cases xs with
  | nil => simp
  | cons x1 xt =>
    cases xt with
    | nil => simp
    | cons x2 xtt =>
      show (xtt ++ ys).take ((x1 :: x2 :: xtt).length - 2) = xtt
      have h2 : (x1 :: x2 :: xtt).length - 2 = xtt.length := by simp
      rw [h2]
      exact takeLenApp xtt ys

/-- C7: section splitting and everything downstream are order-independent.
Two cleaned files made of the same two sections — each starting with its
marker line, with no marker line elsewhere — parse to the same result
whether the `dataassim`/`optim` section or the `fwdsim` section comes
first.  (The pair returned here is exactly what `read_txt` hands to the
external Section Organizer, a deterministic consumer, so the final mappings
coincide as well.) -/
theorem read_txt_section_order_independent (a f : String) (atl ftl : List String)
    (hipm : stripLower a = "dataassim" ∨ stripLower a = "optim")
    (hfwm : stripLower f = "fwdsim")
    (hiprest : ∀ l ∈ atl, stripLower l ≠ "dataassim" ∧ stripLower l ≠ "optim" ∧ stripLower l ≠ "fwdsim")
    (hfwrest : ∀ l ∈ ftl, stripLower l ≠ "dataassim" ∧ stripLower l ≠ "optim" ∧ stripLower l ≠ "fwdsim") :
    readTxtLines ((a :: atl) ++ (f :: ftl)) = readTxtLines ((f :: ftl) ++ (a :: atl)) := by
  have hstep_a : ∀ (i : Nat) (st : ScanSt),
      scanStep i a st = { st with ipind := some i, ip_part := some (stripLower a) } := by
    intro i st; unfold scanStep; rw [if_pos hipm]
  have hstep_f : ∀ (i : Nat) (st : ScanSt), scanStep i f st = { st with fwdsimind := some i } := by
    intro i st; unfold scanStep
    rw [if_neg (by rw [hfwm]; decide), if_pos hfwm]
  have hA : scanGo 0 ⟨none, none, none⟩ ((a :: atl) ++ (f :: ftl)) =
      ⟨some 0, some (stripLower a), some (a :: atl).length⟩ := by
    rw [scanGo_append]
    have h1 : scanGo 0 ⟨none, none, none⟩ (a :: atl) = ⟨some 0, some (stripLower a), none⟩ := by
      rw [scanGo, scanGo_of_no_marker atl hiprest, hstep_a]
    rw [h1, scanGo, scanGo_of_no_marker ftl hfwrest, hstep_f]
    simp
  have hB : scanGo 0 ⟨none, none, none⟩ ((f :: ftl) ++ (a :: atl)) =
      ⟨some (f :: ftl).length, some (stripLower a), some 0⟩ := by
    rw [scanGo_append]
    have h1 : scanGo 0 ⟨none, none, none⟩ (f :: ftl) = ⟨none, none, some 0⟩ := by
      rw [scanGo, scanGo_of_no_marker ftl hfwrest, hstep_f]
    rw [h1, scanGo, scanGo_of_no_marker atl hiprest, hstep_a]
    simp
  have eA : readTxtLines ((a :: atl) ++ (f :: ftl)) =
      readTxtStage2 ((a :: atl).drop 2) ((f :: ftl).drop 2) (stripLower a) := by
    unfold readTxtLines
    rw [hA]
    dsimp only
    rw [if_pos (by simp)]
    rw [pySlice_append_len, dropLenApp]
  have eB : readTxtLines ((f :: ftl) ++ (a :: atl)) =
      readTxtStage2 ((a :: atl).drop 2) ((f :: ftl).drop 2) (stripLower a) := by
    unfold readTxtLines
    rw [hB]
    dsimp only
    rw [if_neg (by simp)]
    rw [pySlice_append_len, dropLenApp]
  exact eA.trans eB.symm

/-- Witness for `read_txt_section_order_independent`: a concrete two-section
file parses identically with the sections swapped. -/
theorem read_txt_section_order_independent_w :
    readTxtLines (["DATAASSIM\n", "hdr\n", "NE\n", "1\n", "\n"] ++
      ["FWDSIM\n", "hdr\n", "SIM\n", "x\n", "\n"]) =
    readTxtLines (["FWDSIM\n", "hdr\n", "SIM\n", "x\n", "\n"] ++
      ["DATAASSIM\n", "hdr\n", "NE\n", "1\n", "\n"]) :=
  read_txt_section_order_independent "DATAASSIM\n" "FWDSIM\n"
    ["hdr\n", "NE\n", "1\n", "\n"] ["hdr\n", "SIM\n", "x\n", "\n"]
    (by decide) (by decide) (by decide) (by decide)

theorem repairElem_eq_str (s t : String) (h : repairElem s = .str t) :
    t = s ∧ pyFloat? s = none ∧ mapO pyFloat? (pySplitWs s) = none := by
  unfold repairElem at h
  cases h1 : pyFloat? s with
  | some q => rw [h1] at h; simp at h
  | none =>
    rw [h1] at h
    cases h2 : mapO pyFloat? (pySplitWs s) with
    | some qs => rw [h2] at h; simp at h
    | none =>
      rw [h2] at h
      injection h with h'
      exact ⟨h'.symm, rfl, rfl⟩

theorem repairRow_all_str (r : List String) :
    repairRow (.list (r.map PyVal.str)) = .ok (.list (r.map repairElem)) := by
  simp only [repairRow]
  rw [if_pos (by simp [List.all_map, Function.comp, PyVal.isStr])]
  congr 1
  rw [List.map_map]
  rfl

/-- C1 amended: the repair pass fixes string-matrix rows element-wise, not
atomically.  For every string matrix, repair succeeds and replaces each
element independently by `repairElem`: a float if the element converts, a
float list if it whitespace-splits into floats, and the unchanged string
otherwise — so a row with both convertible and unconvertible elements
becomes a mixed row.  Moreover any element left as a string is genuinely
unconvertible: both conversions fail on it. -/
theorem repair_string_matrix_elementwise (r0 : List String) (rest : List (List String)) :
    repairVal (.list ((r0 :: rest).map fun r => .list (r.map PyVal.str))) =
      .ok (.list ((r0 :: rest).map fun r => .list (r.map repairElem))) ∧
    ∀ s t : String, repairElem s = .str t →
      t = s ∧ pyFloat? s = none ∧ mapO pyFloat? (pySplitWs s) = none := by
  constructor
  · simp only [List.map_cons]
    simp only [repairVal]
    rw [if_pos (by rfl)]
    rw [show PyVal.list (r0.map PyVal.str) :: rest.map (fun r => PyVal.list (r.map PyVal.str)) =
        (r0 :: rest).map (fun r => PyVal.list (r.map PyVal.str)) from rfl]
    rw [mapE_map_ok repairRow _ (fun r => PyVal.list (r.map repairElem)) (r0 :: rest)
      (fun r _ => repairRow_all_str r)]
    rfl
  · exact fun s t h => repairElem_eq_str s t h

/-- Witness for `repair_string_matrix_elementwise`: the all-string row
`["1.5", "abc"]` is repaired into the mixed row `[1.5, "abc"]`. -/
theorem repair_string_matrix_elementwise_w :
    repairVal (.list [.list [.str "1.5", .str "abc"]]) =
      .ok (.list [.list [.num (mkRat 3 2), .str "abc"]]) := by
  have h := (repair_string_matrix_elementwise ["1.5", "abc"] []).1
  exact h.trans (by rfl)

theorem dictLookup_insert_self (d : Dict) (k : String) (v : PyVal) :
    dictLookup (dictInsert d k v) k = some v := by
  induction d with
  | nil => simp [dictInsert, dictLookup]
  | cons kv rest ih =>
    obtain ⟨k0, v0⟩ := kv
    simp only [dictInsert]
    by_cases hk : k0 = k
    · rw [if_pos hk]
      simp [dictLookup]
    · rw [if_neg hk]
      simp only [dictLookup]
      rw [if_neg hk, ih]

theorem dictLookup_insert_ne (d : Dict) (k k' : String) (v : PyVal) (h : k' ≠ k) :
    dictLookup (dictInsert d k v) k' = dictLookup d k' := by
  induction d with
  | nil =>
    simp only [dictInsert, dictLookup]
    rw [if_neg (fun hc => h hc.symm)]
  | cons kv rest ih =>
    obtain ⟨k0, v0⟩ := kv
    simp only [dictInsert]
    by_cases hk : k0 = k
    · rw [if_pos hk]
      simp only [dictLookup]
      rw [if_neg (fun hc => h hc.symm), if_neg (by rw [hk]; exact fun hc => h hc.symm)]
    · rw [if_neg hk]
      simp only [dictLookup]
      by_cases hk' : k0 = k'
      · rw [if_pos hk', if_pos hk']
      · rw [if_neg hk', if_neg hk', ih]

theorem keys_insert (d : Dict) (k : String) (v : PyVal) :
    (dictInsert d k v).map Prod.fst =
      if k ∈ d.map Prod.fst then d.map Prod.fst else d.map Prod.fst ++ [k] := by
  induction d with
  | nil => simp [dictInsert]
  | cons kv rest ih =>
    obtain ⟨k0, v0⟩ := kv
    simp only [dictInsert]
    by_cases hk : k0 = k
    · rw [if_pos hk, if_pos (by simp [hk])]
      simp [hk]
    · rw [if_neg hk]
      simp only [List.map_cons]
      rw [ih]
      by_cases hm : k ∈ rest.map Prod.fst
      · rw [if_pos hm, if_pos (by simp [hm])]
      · rw [if_neg hm,
          if_neg (show ¬ k ∈ k0 :: rest.map Prod.fst by
            simp [hm]; exact fun hc => hk hc.symm)]
        simp

theorem keys_nodup_insert (d : Dict) (k : String) (v : PyVal)
    (h : (d.map Prod.fst).Nodup) : ((dictInsert d k v).map Prod.fst).Nodup := by
  rw [keys_insert]
  by_cases hm : k ∈ d.map Prod.fst
  · rw [if_pos hm]
    exact h
  · rw [if_neg hm]
    simp [List.nodup_append, h, hm]

theorem dictLookup_mem_keys (d : Dict) (n : String) (v : PyVal)
    (h : dictLookup d n = some v) : n ∈ d.map Prod.fst := by
  induction d with
  | nil => simp [dictLookup] at h
  | cons kv rest ih =>
    obtain ⟨k0, v0⟩ := kv
    simp only [dictLookup] at h
    by_cases hk : k0 = n
    · simp [hk]
    · rw [if_neg hk] at h
      simp [ih h]

theorem foldl_insStep_lookup_no_name (l : List (List String)) (n : String)
    (h : ∀ b ∈ l, b = [] ∨ blockName b ≠ n) :
    ∀ d : Dict, dictLookup (l.foldl insStep d) n = dictLookup d n := by
  induction l with
  | nil => intro d; rfl
  | cons b t ih =>
    intro d
    rw [List.foldl_cons, ih (fun b' hb' => h b' (by simp [hb']))]
    unfold insStep
    rcases h b (by simp) with hb | hb
    · rw [if_pos hb]
    · by_cases hbe : b = []
      · rw [if_pos hbe]
      · rw [if_neg hbe, dictLookup_insert_ne _ _ _ _ (fun hc => hb hc.symm)]

theorem foldl_insStep_keys_nodup (l : List (List String)) :
    ∀ d : Dict, (d.map Prod.fst).Nodup → ((l.foldl insStep d).map Prod.fst).Nodup := by
  induction l with
  | nil => intro d h; exact h
  | cons b t ih =>
    intro d h
    rw [List.foldl_cons]
    apply ih
    unfold insStep
    by_cases hbe : b = []
    · rw [if_pos hbe]; exact h
    · rw [if_neg hbe]; exact keys_nodup_insert _ _ _ h

theorem repairDict_keys : ∀ (d m : Dict), repairDict d = .ok m → m.map Prod.fst = d.map Prod.fst := by
  intro d
  induction d with
  | nil =>
    intro m h
    simp [repairDict] at h
    simp [← h]
  | cons kv rest ih =>
    obtain ⟨k, v⟩ := kv
    intro m h
    simp only [repairDict] at h
    cases hrv : repairVal v with
    | error e => rw [hrv] at h; simp at h
    | ok w =>
      rw [hrv] at h
      cases hrest : repairDict rest with
      | error e => rw [hrest] at h; simp at h
      | ok m' =>
        rw [hrest] at h
        simp at h
        rw [← h]
        simp [ih m' hrest]

theorem repairDict_lookup : ∀ (d m : Dict), repairDict d = .ok m → ∀ (n : String) (v : PyVal),
    dictLookup d n = some v → ∃ w, repairVal v = .ok w ∧ dictLookup m n = some w := by
  intro d
  induction d with
  | nil => intro m _ n v hv; simp [dictLookup] at hv
  | cons kv rest ih =>
    obtain ⟨k, v0⟩ := kv
    intro m h n v hv
    simp only [repairDict] at h
    cases hrv : repairVal v0 with
    | error e => rw [hrv] at h; simp at h
    | ok w =>
      rw [hrv] at h
      cases hrest : repairDict rest with
      | error e => rw [hrest] at h; simp at h
      | ok m' =>
        rw [hrest] at h
        simp at h
        simp only [dictLookup] at hv
        by_cases hk : k = n
        · rw [if_pos hk] at hv
          injection hv with hv'
          refine ⟨w, hv' ▸ hrv, ?_⟩
          rw [← h]
          simp [dictLookup, hk]
        · rw [if_neg hk] at hv
          obtain ⟨w', hw', hlk'⟩ := ih m' hrest n v hv
          refine ⟨w', hw', ?_⟩
          rw [← h]
          simp [dictLookup, hk, hlk']

/-- C10 amended: the dictionary key of a block is its whole first line
stripped and lowercased (`lines[i][0].strip().lower()`), not the first
whitespace token.  With that reading of "keyword name", last occurrence
wins: if a non-empty block `b` named `n` is followed only by blocks not
named `n`, an earlier block named `n` also occurs, and `parse_keywords`
completes (it can raise, see the C3 analysis), then the result binds `n`
exactly once, to the (repaired) value parsed from `b`. -/
theorem parse_last_block_wins (pre : List (List String)) (b : List String)
    (post : List (List String)) (n : String) (m : Dict)
    (hb : b ≠ []) (hn : blockName b = n)
    (hpost : ∀ b' ∈ post, b' = [] ∨ blockName b' ≠ n)
    (hdup : ∃ b0 ∈ pre, b0 ≠ [] ∧ blockName b0 = n)
    (hok : parse_keywords (pre ++ b :: post) = .ok m) :
    countName m n = 1 ∧
    ∃ w, repairVal (classifyVal b.tail) = .ok w ∧ dictLookup m n = some w := by
  have hbd : buildDict (pre ++ b :: post) =
      post.foldl insStep (insStep (buildDict pre) b) := by
    simp [buildDict, List.foldl_append]
  have hstep : insStep (buildDict pre) b = dictInsert (buildDict pre) n (classifyVal b.tail) := by
    unfold insStep
    rw [if_neg hb, hn]
  have hlk : dictLookup (buildDict (pre ++ b :: post)) n = some (classifyVal b.tail) := by
    rw [hbd, foldl_insStep_lookup_no_name post n hpost, hstep, dictLookup_insert_self]
  have hnd : ((buildDict (pre ++ b :: post)).map Prod.fst).Nodup :=
    foldl_insStep_keys_nodup (pre ++ b :: post) [] (by simp)
  unfold parse_keywords at hok
  obtain ⟨w, hw, hlkm⟩ := repairDict_lookup _ m hok n _ hlk
  have hkeys : m.map Prod.fst = (buildDict (pre ++ b :: post)).map Prod.fst :=
    repairDict_keys _ m hok
  refine ⟨?_, w, hw, hlkm⟩
  unfold countName
  rw [hkeys]
  exact List.count_eq_one_of_mem hnd (dictLookup_mem_keys _ _ _ hlk)

/-- Witness for `parse_last_block_wins`: two blocks both named `"a"`; the
mapping binds `"a"` once, to the later block's value. -/
theorem parse_last_block_wins_w :
    countName [("a", PyVal.str "gas")] "a" = 1 ∧
    ∃ w, repairVal (classifyVal (["A\n", "gas\n"].tail)) = .ok w ∧
      dictLookup [("a", PyVal.str "gas")] "a" = some w :=
  parse_last_block_wins [["A\n", "oil\n"]] ["A\n", "gas\n"] [] "a" [("a", .str "gas")]
    (by decide) rfl (by simp) ⟨["A\n", "oil\n"], by simp, by decide, rfl⟩ rfl

theorem wsTokensAux_all_space (cs : List Char) (h : ∀ c ∈ cs, isPySpace c = true) :
    wsTokensAux cs [] = [] := by
  induction cs with
  | nil => rfl
  | cons c t ih =>
    unfold wsTokensAux
    rw [if_pos (h c (by simp))]
    exact ih (fun c' hc' => h c' (by simp [hc']))

theorem splitTab_ne_nil (cs : List Char) : splitTab cs ≠ [] := by
  induction cs with
  | nil => simp [splitTab]
  | cons c t ih =>
    unfold splitTab
    by_cases hc : c = '\t'
    · rw [if_pos hc]; simp
    · rw [if_neg hc]
      cases hst : splitTab t with
      | nil => exact absurd hst ih
      | cons p ps => simp

theorem splitTab_mem_of_mem (cs : List Char) (c : Char) :
    c ∈ cs → c ≠ '\t' → ∃ p ∈ splitTab cs, c ∈ p := by
  induction cs with
  | nil => intro hc _; simp at hc
  | cons d t ih =>
    intro hc hct
    unfold splitTab
    by_cases hd : d = '\t'
    · rw [if_pos hd]
      have hct' : c ∈ t := by
        rcases List.mem_cons.mp hc with h | h
        · exact absurd (h.trans hd) hct
        · exact h
      obtain ⟨p, hp, hcp⟩ := ih hct' hct
      exact ⟨p, by simp [hp], hcp⟩
    · rw [if_neg hd]
      cases hst : splitTab t with
      | nil => exact absurd hst (splitTab_ne_nil t)
      | cons p ps =>
        rcases List.mem_cons.mp hc with h | h
        · exact ⟨d :: p, by simp, by simp [h]⟩
        · obtain ⟨q, hq, hcq⟩ := ih h hct
          rw [hst] at hq
          rcases List.mem_cons.mp hq with h' | h'
          · exact ⟨d :: p, by simp, by simp [h' ▸ hcq]⟩
          · exact ⟨q, by simp [h'], hcq⟩

theorem filtered_tab_pieces_ne_nil (l : String) (h : pySplitWs l ≠ []) :
    (pySplitTab l).filter (fun x => x ≠ "") ≠ [] := by
  have hch : ∃ c ∈ l.data, isPySpace c = false := by
    by_contra hall
    push_neg at hall
    have hsp : ∀ c ∈ l.data, isPySpace c = true := by
      intro c hc
      cases hspc : isPySpace c with
      | true => rfl
      | false => exact absurd hspc (hall c hc)
    exact h (by simp [pySplitWs, wsTokens, wsTokensAux_all_space l.data hsp])
  obtain ⟨c, hcmem, hcsp⟩ := hch
  have hct : c ≠ '\t' := by
    intro hc
    rw [hc] at hcsp
    simp [isPySpace] at hcsp
  obtain ⟨p, hpmem, hcp⟩ := splitTab_mem_of_mem l.data c hcmem hct
  have hpne : String.mk p ≠ "" := by
    intro hc
    have hp0 : p = [] := congrArg String.data hc
    rw [hp0] at hcp
    simp at hcp
  intro hflt
  have hmem : String.mk p ∈ (pySplitTab l).filter (fun x => x ≠ "") := by
    rw [List.mem_filter]
    exact ⟨List.mem_map_of_mem _ hpmem, by simp [hpne]⟩
  rw [hflt] at hmem
  simp at hmem

theorem mem_dictInsert (d : Dict) (k : String) (v : PyVal) (kv : String × PyVal)
    (h : kv ∈ dictInsert d k v) : kv ∈ d ∨ kv = (k, v) := by
  induction d with
  | nil => simp [dictInsert] at h; simp [h]
  | cons kv0 rest ih =>
    obtain ⟨k0, v0⟩ := kv0
    simp only [dictInsert] at h
    by_cases hk : k0 = k
    · rw [if_pos hk] at h
      rcases List.mem_cons.mp h with h' | h'
      · exact Or.inr h'
      · exact Or.inl (by simp [h'])
    · rw [if_neg hk] at h
      rcases List.mem_cons.mp h with h' | h'
      · exact Or.inl (by simp [h'])
      · rcases ih h' with h'' | h''
        · exact Or.inl (by simp [h''])
        · exact Or.inr h''

theorem repairRow_ok_of_not_num (r : PyVal) (h : r.isNum = false) :
    ∃ w, repairRow r = .ok w := by
  cases r with
  | num q => simp [PyVal.isNum] at h
  | str s => exact ⟨.str s, rfl⟩
  | list es =>
    by_cases hstr : es.all PyVal.isStr = true
    · exact ⟨.list (es.map convElem), by simp only [repairRow]; rw [if_pos hstr]⟩
    · exact ⟨.list es, by simp only [repairRow]; rw [if_neg hstr]⟩

theorem mapE_ok_of_forall {α β : Type} (f : α → Except PyErr β) :
    ∀ (l : List α), (∀ x ∈ l, ∃ y, f x = .ok y) → ∃ ys, mapE f l = .ok ys := by
  intro l
  induction l with
  | nil => intro _; exact ⟨[], rfl⟩
  | cons x t ih =>
    intro h
    obtain ⟨y, hy⟩ := h x (by simp)
    obtain ⟨ys, hys⟩ := ih (fun x' hx' => h x' (by simp [hx']))
    exact ⟨y :: ys, by unfold mapE; rw [hy, hys]⟩

theorem repairVal_ok_of_valOk (v : PyVal) (h : valOk v = true) :
    ∃ w, repairVal v = .ok w := by
  cases v with
  | num q => exact ⟨.num q, rfl⟩
  | str s => exact ⟨.str s, rfl⟩
  | list rows =>
    cases rows with
    | nil => simp [valOk] at h
    | cons r0 rest =>
      by_cases hl : r0.isList = true
      · have hall : (r0 :: rest).all (fun r => !r.isNum) = true := by
          simp only [valOk, hl] at h
          simpa using h
        have hrows : ∀ r ∈ r0 :: rest, ∃ w, repairRow r = .ok w := by
          intro r hr
          rw [List.all_eq_true] at hall
          have := hall r hr
          exact repairRow_ok_of_not_num r (by simpa using this)
        obtain ⟨ys, hys⟩ := mapE_ok_of_forall repairRow (r0 :: rest) hrows
        exact ⟨.list ys, by simp only [repairVal]; rw [if_pos hl, hys]; rfl⟩
      · by_cases hstr : (r0 :: rest).all PyVal.isStr = true
        · exact ⟨.list ((r0 :: rest).map convElem), by
            simp only [repairVal]; rw [if_neg hl, if_pos hstr]⟩
        · exact ⟨.list (r0 :: rest), by
            simp only [repairVal]; rw [if_neg hl, if_neg hstr]⟩

theorem classifyVal_valOk (p : List String) (hp : p ≠ [])
    (h1 : p.length = 1 → pySplitWs (p.headD "") ≠ []) :
    valOk (classifyVal p) = true := by
  unfold classifyVal
  cases ha1 : attempt1D p with
  | some v =>
    unfold attempt1D at ha1
    by_cases hc : p.length = 1 ∧ (pySplitWs (p.headD "")).length = 1
    · rw [if_pos hc] at ha1
      cases hf : pyFloat? (p.headD "") with
      | none => rw [hf] at ha1; simp at ha1
      | some q =>
        rw [hf] at ha1
        simp at ha1
        rw [← ha1]
        rfl
    · rw [if_neg hc] at ha1
      cases hm : mapO pyFloat? p with
      | none => rw [hm] at ha1; simp at ha1
      | some qs =>
        rw [hm] at ha1
        simp at ha1
        cases qs with
        | nil =>
          have := mapO_length pyFloat? p [] hm
          cases p with
          | nil => exact absurd rfl hp
          | cons a t => simp at this
        | cons q qt =>
          rw [← ha1]
          rfl
  | none =>
  cases ha2 : attempt2D p with
  | some v =>
    unfold attempt2D at ha2
    by_cases hc : p.length = 1
    · rw [if_pos hc] at ha2
      cases hm : mapO pyFloat? (pySplitWs (p.headD "")) with
      | none => rw [hm] at ha2; simp at ha2
      | some qs =>
        rw [hm] at ha2
        simp at ha2
        cases qs with
        | nil =>
          have hlen := mapO_length pyFloat? _ [] hm
          have htok := h1 hc
          cases htokc : pySplitWs (p.headD "") with
          | nil => exact absurd htokc htok
          | cons a t => rw [htokc] at hlen; simp at hlen
        | cons q qt =>
          rw [← ha2]
          rfl
    · rw [if_neg hc] at ha2
      cases hm : mapO (fun col => mapO pyFloat? (pySplitWs col)) p with
      | none => rw [hm] at ha2; simp at ha2
      | some rss =>
        rw [hm] at ha2
        simp at ha2
        cases rss with
        | nil =>
          have := mapO_length _ p [] hm
          cases p with
          | nil => exact absurd rfl hp
          | cons a t => simp at this
        | cons r rt =>
          rw [← ha2]
          simp [valOk, PyVal.isList, List.all_map, Function.comp, PyVal.isNum]
  | none =>
    show valOk (stringBranch p) = true
    unfold stringBranch
    by_cases hc : p.length = 1
    · rw [if_pos hc]
      obtain ⟨l, rfl⟩ : ∃ l, p = [l] := by
        cases p with
        | nil => simp at hc
        | cons a t =>
          cases t with
          | nil => exact ⟨a, rfl⟩
          | cons b t' => simp at hc
      simp only [List.headD_cons]
      by_cases ht : (pySplitTab l).length = 1
      · rw [if_pos ht]
        rfl
      · rw [if_neg ht]
        have hflt := filtered_tab_pieces_ne_nil l (h1 hc)
        cases hfc : (pySplitTab l).filter (fun x => x ≠ "") with
        | nil => exact absurd hfc hflt
        | cons x xs => rfl
    · rw [if_neg hc]
      by_cases hone : p.all (fun l => (pySplitTab l).length ≤ 1)
      · rw [if_pos hone]
        cases p with
        | nil => exact absurd rfl hp
        | cons a t => rfl
      · rw [if_neg hone]
        cases p with
        | nil => exact absurd rfl hp
        | cons a t =>
          simp [valOk, PyVal.isList, List.all_map, Function.comp, PyVal.isNum]

theorem foldl_insStep_valOk (l : List (List String))
    (hl : ∀ b ∈ l, b ≠ [] → valOk (classifyVal b.tail) = true) :
    ∀ d : Dict, (∀ kv ∈ d, valOk kv.2 = true) →
      ∀ kv ∈ l.foldl insStep d, valOk kv.2 = true := by
  induction l with
  | nil => intro d hd kv hkv; exact hd kv hkv
  | cons b t ih =>
    intro d hd kv hkv
    rw [List.foldl_cons] at hkv
    refine ih (fun b' hb' h' => hl b' (by simp [hb']) h') _ ?_ kv hkv
    intro kv' hkv'
    unfold insStep at hkv'
    by_cases hbe : b = []
    · rw [if_pos hbe] at hkv'
      exact hd kv' hkv'
    · rw [if_neg hbe] at hkv'
      rcases mem_dictInsert _ _ _ _ hkv' with h' | h'
      · exact hd kv' h'
      · rw [h']
        exact hl b (by simp) hbe

theorem repairDict_ok_of_valOk : ∀ d : Dict, (∀ kv ∈ d, valOk kv.2 = true) →
    ∃ m, repairDict d = .ok m := by
  intro d
  induction d with
  | nil => intro _; exact ⟨[], rfl⟩
  | cons kv rest ih =>
    obtain ⟨k, v⟩ := kv
    intro h
    obtain ⟨w, hw⟩ := repairVal_ok_of_valOk v (h (k, v) (by simp))
    obtain ⟨m', hm'⟩ := ih (fun kv' hkv' => h kv' (by simp [hkv']))
    exact ⟨(k, w) :: m', by simp only [repairDict]; rw [hw, hm']⟩

/-- C3 amended: `parse_keywords` completes without raising provided every
non-empty block has a payload that is neither empty nor a single
whitespace-only line.  (A block that is only a keyword line classifies as
the empty list and the repair pass raises `IndexError` on it — see the
counterexample; a single all-whitespace payload line reaches the same empty
list through the 2D float attempt.)  Classification fallthrough itself never
escapes: every failure inside the classifier falls to the string branch,
and the repair pass succeeds on every shape the classifier can emit. -/
theorem parse_keywords_no_raise (blocks : List (List String))
    (h : ∀ b ∈ blocks, b ≠ [] →
      b.tail ≠ [] ∧ (b.tail.length = 1 → pySplitWs (b.tail.headD "") ≠ [])) :
    ∃ m, parse_keywords blocks = .ok m := by
  unfold parse_keywords
  apply repairDict_ok_of_valOk
  apply foldl_insStep_valOk blocks _ []
  · intro kv hkv
    simp at hkv
  · intro b hb hbne
    obtain ⟨ht, htok⟩ := h b hb hbne
    exact classifyVal_valOk b.tail ht htok

/-- Witness for `parse_keywords_no_raise`: three blocks (one empty, as a
blank line produces) parse without an exception. -/
theorem parse_keywords_no_raise_w :
    ∃ m, parse_keywords [["NE\n", "100\n"], [], ["DATATYPE\n", "wbhp\n", "wopr\n"]] = .ok m :=
  parse_keywords_no_raise [["NE\n", "100\n"], [], ["DATATYPE\n", "wbhp\n", "wopr\n"]] (by decide)

theorem repairElem_fix (s t : String) (h : repairElem s = .str t) :
    repairElem t = .str t := by
  obtain ⟨ht, h1, h2⟩ := repairElem_eq_str s t h
  subst ht
  simp [repairElem, h1, h2]

theorem map_id_of_forall {α : Type} (f : α → α) :
    ∀ (l : List α), (∀ x ∈ l, f x = x) → l.map f = l := by
  intro l
  induction l with
  | nil => intro _; rfl
  | cons x t ih =>
    intro h
    simp only [List.map_cons]
    rw [h x (by simp), ih (fun x' hx' => h x' (by simp [hx']))]

theorem map_convElem_fix (es : List PyVal)
    (hstr : es.all PyVal.isStr = true)
    (hall : (es.map convElem).all PyVal.isStr = true) :
    (es.map convElem).map convElem = es.map convElem := by
  apply map_id_of_forall
  intro x hx
  obtain ⟨e, he, hxe⟩ := List.mem_map.mp hx
  have hes : e.isStr = true := by
    rw [List.all_eq_true] at hstr
    exact hstr e he
  cases e with
  | num q => simp [PyVal.isStr] at hes
  | list l => simp [PyVal.isStr] at hes
  | str s =>
    have hx' : x.isStr = true := by
      rw [List.all_eq_true] at hall
      exact hall x hx
    rw [← hxe] at hx' ⊢
    show convElem (repairElem s) = repairElem s
    cases hre : repairElem s with
    | num q => rfl
    | list l => rfl
    | str t =>
      show repairElem t = PyVal.str t
      exact repairElem_fix s t hre

theorem mapE_cons_inv {α β : Type} (f : α → Except PyErr β) (x : α) (t : List α)
    (ys : List β) (h : mapE f (x :: t) = .ok ys) :
    ∃ y ys', f x = .ok y ∧ mapE f t = .ok ys' ∧ ys = y :: ys' := by
  unfold mapE at h
  cases hfx : f x with
  | error e => rw [hfx] at h; simp at h
  | ok y =>
    rw [hfx] at h
    cases hmt : mapE f t with
    | error e => rw [hmt] at h; simp at h
    | ok ys' =>
      rw [hmt] at h
      simp at h
      exact ⟨y, ys', rfl, rfl, h.symm⟩

theorem mapE_mem {α β : Type} (f : α → Except PyErr β) :
    ∀ (l : List α) (ys : List β), mapE f l = .ok ys → ∀ y ∈ ys, ∃ x ∈ l, f x = .ok y := by
  intro l
  induction l with
  | nil =>
    intro ys h y hy
    simp [mapE] at h
    rw [h] at hy
    simp at hy
  | cons x t ih =>
    intro ys h y hy
    obtain ⟨y0, ys', hfx, hmt, rfl⟩ := mapE_cons_inv f x t ys h
    rcases List.mem_cons.mp hy with h' | h'
    · exact ⟨x, by simp, h' ▸ hfx⟩
    · obtain ⟨x', hx', hfx'⟩ := ih ys' hmt y h'
      exact ⟨x', by simp [hx'], hfx'⟩

theorem mapE_id {α : Type} (f : α → Except PyErr α) :
    ∀ (l : List α), (∀ x ∈ l, f x = .ok x) → mapE f l = .ok l := by
  intro l
  induction l with
  | nil => intro _; rfl
  | cons x t ih =>
    intro h
    unfold mapE
    rw [h x (by simp), ih (fun x' hx' => h x' (by simp [hx']))]

theorem repairRow_of_repairElem (s : String) (h : (repairElem s).isNum = false) :
    repairRow (repairElem s) = .ok (repairElem s) := by
  cases hre : repairElem s with
  | num q => rw [hre] at h; simp [PyVal.isNum] at h
  | str t => simp [repairRow]
  | list l =>
    unfold repairElem at hre
    cases h1 : pyFloat? s with
    | some q => rw [h1] at hre; simp at hre
    | none =>
      rw [h1] at hre
      cases h2 : mapO pyFloat? (pySplitWs s) with
      | none => rw [h2] at hre; simp at hre
      | some qs =>
        rw [h2] at hre
        simp at hre
        cases qs with
        | nil =>
          rw [← hre]
          simp [repairRow]
        | cons q qt =>
          rw [← hre]
          simp only [repairRow, List.map_cons]
          rw [if_neg (by simp [PyVal.isStr])]

theorem repairRow_out (r r' : PyVal) (h : repairRow r = .ok r') : repairRow r' = .ok r' := by
  cases r with
  | num q => simp [repairRow] at h
  | str s =>
    simp only [repairRow] at h
    injection h with h'
    rw [← h']
    rfl
  | list es =>
    simp only [repairRow] at h
    by_cases hstr : es.all PyVal.isStr = true
    · rw [if_pos hstr] at h
      injection h with h'
      rw [← h']
      simp only [repairRow]
      by_cases hall : (es.map convElem).all PyVal.isStr = true
      · rw [if_pos hall, map_convElem_fix es hstr hall]
      · rw [if_neg hall]
    · rw [if_neg hstr] at h
      injection h with h'
      rw [← h']
      simp only [repairRow]
      rw [if_neg hstr]

theorem repairRow_list_out (r r' : PyVal) (hl : r.isList = true)
    (h : repairRow r = .ok r') : r'.isList = true := by
  cases r with
  | num q => simp [PyVal.isList] at hl
  | str s => simp [PyVal.isList] at hl
  | list es =>
    simp only [repairRow] at h
    by_cases hstr : es.all PyVal.isStr = true
    · rw [if_pos hstr] at h
      injection h with h'
      rw [← h']
      rfl
    · rw [if_neg hstr] at h
      injection h with h'
      rw [← h']
      rfl

theorem repairVal_fix (v w : PyVal) (h : repairVal v = .ok w) (hw : valOk w = true) :
    repairVal w = .ok w := by
  cases v with
  | num q =>
    simp only [repairVal] at h
    injection h with h'
    rw [← h']
    rfl
  | str s =>
    simp only [repairVal] at h
    injection h with h'
    rw [← h']
    rfl
  | list rows =>
    cases rows with
    | nil => simp [repairVal] at h
    | cons r0 rest =>
      simp only [repairVal] at h
      by_cases hl : r0.isList = true
      · rw [if_pos hl] at h
        cases hme : mapE repairRow (r0 :: rest) with
        | error e => rw [hme] at h; simp [Except.map] at h
        | ok rows' =>
          rw [hme] at h
          simp only [Except.map] at h
          injection h with h'
          obtain ⟨r0', rest', hr0', hrest', hrows⟩ := mapE_cons_inv repairRow r0 rest rows' hme
          rw [← h', hrows]
          simp only [repairVal]
          rw [if_pos (repairRow_list_out r0 r0' hl hr0')]
          have hid : mapE repairRow (r0' :: rest') = .ok (r0' :: rest') := by
            apply mapE_id
            intro y hy
            rw [← hrows] at hy
            obtain ⟨x, hx, hfx⟩ := mapE_mem repairRow (r0 :: rest) rows' hme y hy
            exact repairRow_out x y hfx
          rw [hid]
          rfl
      · rw [if_neg hl] at h
        by_cases hstr : (r0 :: rest).all PyVal.isStr = true
        · rw [if_pos hstr] at h
          injection h with h'
          rw [← h'] at hw ⊢
          simp only [List.map_cons] at hw ⊢
          simp only [repairVal]
          by_cases hml : (convElem r0).isList = true
          · rw [if_pos hml]
            simp only [valOk, hml] at hw
            have hall : (convElem r0 :: rest.map convElem).all (fun r => !r.isNum) = true := by
              simpa using hw
            have hid : mapE repairRow (convElem r0 :: rest.map convElem) =
                .ok (convElem r0 :: rest.map convElem) := by
              apply mapE_id
              intro y hy
              have hy' : y ∈ (r0 :: rest).map convElem := by
                simpa [List.map_cons] using hy
              obtain ⟨e, he, hye⟩ := List.mem_map.mp hy'
              have hes : e.isStr = true := by
                rw [List.all_eq_true] at hstr
                exact hstr e he
              cases e with
              | num q => simp [PyVal.isStr] at hes
              | list l2 => simp [PyVal.isStr] at hes
              | str s =>
                have hynum : y.isNum = false := by
                  rw [List.all_eq_true] at hall
                  have := hall y hy
                  simpa using this
                rw [← hye] at hynum ⊢
                show repairRow (repairElem s) = .ok (repairElem s)
                exact repairRow_of_repairElem s hynum
            rw [hid]
            rfl
          · rw [if_neg hml]
            by_cases hall2 : (convElem r0 :: rest.map convElem).all PyVal.isStr = true
            · rw [if_pos hall2]
              have hfix := map_convElem_fix (r0 :: rest) hstr (by
                simpa [List.map_cons] using hall2)
              simp only [List.map_cons] at hfix
              simp only [List.map_cons]
              rw [hfix]
            · rw [if_neg hall2]
        · rw [if_neg hstr] at h
          injection h with h'
          rw [← h']
          simp only [repairVal]
          rw [if_neg hl, if_neg hstr]

/-- C9 amended: the repair pass is idempotent on every mapping where one
application succeeds and every repaired value is safe (`valOk`: not a list
headed by a list yet containing a top-level float).  The unsafe shape can
only arise from a string vector whose first element whitespace-splits into
floats while another element is a single numeral; on such mappings the
second application raises an uncaught `TypeError` (see the counterexample). -/
theorem repair_idempotent_on_safe : ∀ (m m' : Dict), repairDict m = .ok m' →
    (∀ kv ∈ m', valOk kv.2 = true) → repairDict m' = .ok m' := by
  intro m
  induction m with
  | nil =>
    intro m' h _
    simp [repairDict] at h
    rw [h]
    rfl
  | cons kv rest ih =>
    obtain ⟨k, v⟩ := kv
    intro m' h hs
    simp only [repairDict] at h
    cases hrv : repairVal v with
    | error e => rw [hrv] at h; simp at h
    | ok w =>
      rw [hrv] at h
      cases hrest : repairDict rest with
      | error e => rw [hrest] at h; simp at h
      | ok mr =>
        rw [hrest] at h
        simp at h
        rw [← h] at hs ⊢
        simp only [repairDict]
        rw [repairVal_fix v w hrv (hs (k, w) (by simp))]
        rw [ih mr hrest (fun kv' hkv' => hs kv' (by simp [hkv']))]

/-- Witness for `repair_idempotent_on_safe`: a repaired string matrix is a
fixed point of a second repair application. -/
theorem repair_idempotent_on_safe_w :
    repairDict [("k", PyVal.list [PyVal.list [PyVal.str "a"], PyVal.list [PyVal.num 1]])] =
      .ok [("k", PyVal.list [PyVal.list [PyVal.str "a"], PyVal.list [PyVal.num 1]])] :=
  repair_idempotent_on_safe [("k", .list [.list [.str "a"], .list [.str "1"]])] _ rfl (by decide)
